import Mathlib

/-!
Shallow embedding of the core of crypto_forecast.py: the parameter
estimator (fetch_crypto_data, lines 38-58 plus the catch-all wrapper of
lines 59-60), the GBM path simulator and inline summarizer
(simulate_crypto_prices, lines 62-80), together with the numpy median and
linear-interpolation percentile routines they call.

Modelling conventions:
- Python floats are modelled as exact rationals.  Where the estimator can
  produce IEEE special values (division by a zero price), values are
  modelled by the extended type EV with fin, pinf, ninf and nan
  constructors and IEEE propagation rules.
- np.exp and np.sqrt are opaque library functions; they are supplied as
  the fields rexp and rsqrt of an environment Env.  np.random.normal with
  mean loc and deviation scale produces loc + scale * n where n is a
  standard normal draw; the stream of standard normal draws is the field
  g of Env, indexed by simulation index and day index.
- Exceptions are modelled by Except over the type PyError.  The source
  raises ValueError and IndexError internally and re-raises everything as
  a generic Exception with a formatted message; the five typed kinds of
  the specification taxonomy are included as extra constructors (the
  source never raises them) so that statements about them can be written.
-/

namespace CryptoForecast

/-- Environment supplying the opaque numerical library functions and the
stream of standard normal draws consumed by np.random.normal. -/
structure Env where
  rexp : ℚ → ℚ
  rsqrt : ℚ → ℚ
  g : Nat → Nat → ℚ

/-- Daily time step in years, dt = 1 / 365 from line 65 of the source. -/
def dt : ℚ := 1 / 365

/-- Extended value: a finite rational, positive or negative infinity, or
nan, with IEEE-style propagation through arithmetic. -/
inductive EV where
  | fin : ℚ → EV
  | pinf : EV
  | ninf : EV
  | nan : EV
deriving DecidableEq, Repr

/-- Nan test, modelling np.isnan. -/
def EV.isNan : EV → Bool
  | .nan => true
  | _ => false

/-- Finiteness test: true exactly on finite rationals. -/
def EV.isFinite : EV → Bool
  | .fin _ => true
  | _ => false

/-- IEEE addition on extended values. -/
def evAdd : EV → EV → EV
  | .nan, _ => .nan
  | _, .nan => .nan
  | .fin a, .fin b => .fin (a + b)
  | .fin _, .pinf => .pinf
  | .fin _, .ninf => .ninf
  | .pinf, .fin _ => .pinf
  | .ninf, .fin _ => .ninf
  | .pinf, .pinf => .pinf
  | .ninf, .ninf => .ninf
  | .pinf, .ninf => .nan
  | .ninf, .pinf => .nan

/-- IEEE negation on extended values. -/
def evNeg : EV → EV
  | .fin a => .fin (-a)
  | .pinf => .ninf
  | .ninf => .pinf
  | .nan => .nan

/-- IEEE subtraction on extended values. -/
def evSub (x y : EV) : EV := evAdd x (evNeg y)

/-- IEEE multiplication on extended values. -/
def evMul : EV → EV → EV
  | .nan, _ => .nan
  | _, .nan => .nan
  | .fin a, .fin b => .fin (a * b)
  | .fin a, .pinf => if 0 < a then .pinf else if a < 0 then .ninf else .nan
  | .fin a, .ninf => if 0 < a then .ninf else if a < 0 then .pinf else .nan
  | .pinf, .fin b => if 0 < b then .pinf else if b < 0 then .ninf else .nan
  | .ninf, .fin b => if 0 < b then .ninf else if b < 0 then .pinf else .nan
  | .pinf, .pinf => .pinf
  | .pinf, .ninf => .ninf
  | .ninf, .pinf => .ninf
  | .ninf, .ninf => .pinf

/-- IEEE division on extended values; the stored rational zero plays the
role of IEEE positive zero. -/
def evDiv : EV → EV → EV
  | .nan, _ => .nan
  | _, .nan => .nan
  | .fin a, .fin b =>
      if b ≠ 0 then .fin (a / b)
      else if 0 < a then .pinf else if a < 0 then .ninf else .nan
  | .fin _, .pinf => .fin 0
  | .fin _, .ninf => .fin 0
  | .pinf, .fin b => if b < 0 then .ninf else .pinf
  | .ninf, .fin b => if b < 0 then .pinf else .ninf
  | .pinf, .pinf => .nan
  | .pinf, .ninf => .nan
  | .ninf, .pinf => .nan
  | .ninf, .ninf => .nan

/-- IEEE square root on extended values, delegating the finite
non-negative case to the opaque library root rsqrt. -/
def evSqrt (env : Env) : EV → EV
  | .fin a => if a < 0 then .nan else .fin (env.rsqrt a)
  | .pinf => .pinf
  | .ninf => .nan
  | .nan => .nan

/-- Sum of a list of extended values, left fold as the library sums. -/
def evSum (l : List EV) : EV := l.foldl evAdd (.fin 0)

/-- Mean of a series, modelling pandas Series.mean on nan-free data. -/
def seriesMean (l : List EV) : EV := evDiv (evSum l) (.fin (l.length : ℚ))

/-- Sample variance of a series with denominator n - 1, the two-pass
formula used by pandas Series.var with its default ddof of one. -/
def seriesVar (l : List EV) : EV :=
  let m := seriesMean l
  evDiv (evSum (l.map (fun x => evMul (evSub x m) (evSub x m))))
    (.fin ((l.length : ℚ) - 1))

/-- Sample standard deviation, modelling pandas Series.std. -/
def seriesStd (env : Env) (l : List EV) : EV := evSqrt env (seriesVar l)

/-- Percent change of a price series, modelling Series.pct_change on line
38: entry t is close t divided by close t-1, minus one, with a leading
nan; empty input gives an empty series. -/
def pct_change (xs : List ℚ) : List EV :=
  match xs with
  | [] => []
  | _ :: _ =>
      EV.nan :: (xs.zip xs.tail).map
        (fun p => evSub (evDiv (.fin p.2) (.fin p.1)) (.fin 1))

/-- Modelling Series.dropna: remove every nan entry. -/
def dropna (l : List EV) : List EV := l.filter (fun x => !x.isNan)

/-- Python exception values.  The first three constructors are the
exception kinds the source actually raises (ValueError, IndexError, and
the catch-all generic Exception re-raised with a formatted message).  The
last five are the typed kinds of the specification error taxonomy; they
are absent from the source and never produced by the embedded functions,
and exist here only so claims naming them can be stated. -/
inductive PyError where
  | valueError : String → PyError
  | indexError : String → PyError
  | genericException : String → PyError
  | insufficientDataError : PyError
  | invalidPriceError : PyError
  | numericalError : PyError
  | invalidConfigError : PyError
  | emptyEnsembleError : PyError
deriving DecidableEq, Repr

/-- The message text of an exception, modelling the Python str of the
exception object. -/
def errStr : PyError → String
  | .valueError m => m
  | .indexError m => m
  | .genericException m => m
  | .insufficientDataError => "InsufficientDataError"
  | .invalidPriceError => "InvalidPriceError"
  | .numericalError => "NumericalError"
  | .invalidConfigError => "InvalidConfigError"
  | .emptyEnsembleError => "EmptyEnsembleError"

/-- Body of fetch_crypto_data from line 38 onward, taking the fetched
closing prices as input: compute the daily returns with pct_change and
dropna, require at least two of them, annualize mean and standard
deviation, take the last close as initial price, reject a non-positive
initial price and a nan mu or sigma. -/
def fetch_core (env : Env) (closes : List ℚ) : Except PyError (ℚ × EV × EV) :=
  let daily_returns := dropna (pct_change closes)
  if daily_returns.length < 2 then
    .error (.valueError "Insufficient data points to calculate returns")
  else
    let mu := evMul (seriesMean daily_returns) (.fin 365)
    let sigma := evMul (seriesStd env daily_returns) (evSqrt env (.fin 365))
    let initial_price := closes.getLastD 0
    if initial_price ≤ 0 then
      .error (.valueError "Invalid initial price")
    else if mu.isNan || sigma.isNan then
      .error (.valueError "NaN detected in mu or sigma")
    else
      .ok (initial_price, mu, sigma)

/-- fetch_crypto_data with the catch-all wrapper of lines 59-60: any
internal exception is re-raised as a generic Exception whose message is
formatted from the original one. -/
def fetch_crypto_data (env : Env) (closes : List ℚ) :
    Except PyError (ℚ × EV × EV) :=
  match fetch_core env closes with
  | .ok v => .ok v
  | .error e =>
      .error (.genericException ("Error in fetch_crypto_data: " ++ errStr e))

/-- The draw daily_returns i t of line 66: np.random.normal with mean
mu * dt and deviation sigma * sqrt dt produces
mu * dt + sigma * sqrt dt * n with n a standard normal draw. -/
def normalDraw (env : Env) (mu sigma : ℚ) (i t : Nat) : ℚ :=
  mu * dt + sigma * env.rsqrt dt * env.g i t

/-- The price of simulation i at day t, from lines 69-71: day zero is the
initial price, and each later day multiplies the previous day by the
exponential of the normal draw of that day. -/
def price_path (env : Env) (initial_price mu sigma : ℚ) (i : Nat) : Nat → ℚ
  | 0 => initial_price
  | t + 1 =>
      price_path env initial_price mu sigma i t *
        env.rexp (normalDraw env mu sigma i (t + 1))

/-- Ascending sort of the data, as the numpy statistics routines sort. -/
def np_sort (l : List ℚ) : List ℚ := l.insertionSort (· ≤ ·)

/-- np.median: sort, then take the middle element for odd length or the
average of the two middle elements for even length. -/
def np_median (l : List ℚ) : ℚ :=
  let s := np_sort l
  let n := l.length
  if n % 2 = 1 then s.getD (n / 2) 0
  else (s.getD (n / 2 - 1) 0 + s.getD (n / 2) 0) / 2

/-- np.percentile with its default linear interpolation method: the
result sits at fractional position q * (n - 1) / 100 of the sorted data,
interpolating linearly between the two neighbouring order statistics. -/
def np_percentile (l : List ℚ) (q : ℚ) : ℚ :=
  let s := np_sort l
  let n := l.length
  let pos := q * ((n : ℚ) - 1) / 100
  let i := (⌊pos⌋).toNat
  let frac := pos - (i : ℚ)
  if i + 1 < n then s.getD i 0 + frac * (s.getD (i + 1) 0 - s.getD i 0)
  else s.getD (n - 1) 0

/-- Body of simulate_crypto_prices, lines 64-78.  A negative dimension
makes np.random.normal raise ValueError; a zero day count makes the
column-zero assignment of line 69 raise IndexError; the paths follow the
GBM recurrence; with zero simulations np.median of the empty final column
yields nan without raising, and np.percentile then raises IndexError;
otherwise the paths and the summary statistics of the final column are
returned. -/
def simulate_core (env : Env) (initial_price mu sigma : ℚ)
    (days sims : Int) : Except PyError (List (List ℚ) × ℚ × ℚ × ℚ) :=
  if days < 0 ∨ sims < 0 then
    .error (.valueError "negative dimensions are not allowed")
  else if days = 0 then
    .error (.indexError "index 0 is out of bounds for axis 1 with size 0")
  else
    let d := days.toNat
    let s := sims.toNat
    let price_paths :=
      (List.range s).map
        (fun i => (List.range d).map (price_path env initial_price mu sigma i))
    let final_prices := price_paths.map (fun row => row.getLastD 0)
    let median_price := np_median final_prices
    if s = 0 then
      .error (.indexError "cannot do a non-empty take from an empty axes")
    else
      .ok (price_paths, median_price,
        np_percentile final_prices 2.5, np_percentile final_prices 97.5)

/-- simulate_crypto_prices with the catch-all wrapper of lines 79-80. -/
def simulate_crypto_prices (env : Env) (initial_price mu sigma : ℚ)
    (days sims : Int) : Except PyError (List (List ℚ) × ℚ × ℚ × ℚ) :=
  match simulate_core env initial_price mu sigma days sims with
  | .ok v => .ok v
  | .error e =>
      .error (.genericException ("Error in simulate_crypto_prices: " ++ errStr e))

/-- The parameter names of the def line of simulate_crypto_prices on line
62 of the source, in order. -/
def simulate_crypto_prices_args : List String :=
  ["initial_price", "mu", "sigma", "days", "sims"]

/-- Simple period-over-period returns of a price series, written from the
specification formula: r t is price t over price t-1, minus one. -/
def simpleReturns (xs : List ℚ) : List ℚ :=
  (xs.zip xs.tail).map (fun p => p.2 / p.1 - 1)

/-- Mean of a rational list, written from the specification. -/
def qMean (l : List ℚ) : ℚ := l.sum / (l.length : ℚ)

/-- Sample variance with denominator n - 1, written from the
specification reading of the standard deviation of the returns. -/
def qSampleVar (l : List ℚ) : ℚ :=
  (l.map (fun x => (x - qMean l) * (x - qMean l))).sum / ((l.length : ℚ) - 1)

/-- Concrete environment used to instantiate theorems on closed inputs:
an exponential that is constantly one, the identity in place of the
square root, and an all-zero draw stream. -/
def envW : Env where
  rexp := fun _ => 1
  rsqrt := fun q => q
  g := fun _ _ => 0

lemma getD_map_range {α : Type} (f : ℕ → α) {n i : ℕ} (h : i < n) (d₀ : α) :
    ((List.range n).map f).getD i d₀ = f i := by
  rw [List.getD_eq_getElem?_getD, List.getElem?_map, List.getElem?_range h]
  rfl

lemma simulate_core_ok_of (env : Env) (ip mu sg : ℚ) {d s : Int}
    (h1 : 1 ≤ d) (h2 : 1 ≤ s) :
    simulate_core env ip mu sg d s = .ok
      ((List.range s.toNat).map
         (fun i => (List.range d.toNat).map (price_path env ip mu sg i)),
       np_median (((List.range s.toNat).map
         (fun i => (List.range d.toNat).map (price_path env ip mu sg i))).map
           (fun row => row.getLastD 0)),
       np_percentile (((List.range s.toNat).map
         (fun i => (List.range d.toNat).map (price_path env ip mu sg i))).map
           (fun row => row.getLastD 0)) 2.5,
       np_percentile (((List.range s.toNat).map
         (fun i => (List.range d.toNat).map (price_path env ip mu sg i))).map
           (fun row => row.getLastD 0)) 97.5) := by
  simp only [simulate_core]
  rw [if_neg (by omega), if_neg (by omega), if_neg (by omega)]

lemma simulate_ok_of (env : Env) (ip mu sg : ℚ) {d s : Int}
    (h1 : 1 ≤ d) (h2 : 1 ≤ s) :
    simulate_crypto_prices env ip mu sg d s = .ok
      ((List.range s.toNat).map
         (fun i => (List.range d.toNat).map (price_path env ip mu sg i)),
       np_median (((List.range s.toNat).map
         (fun i => (List.range d.toNat).map (price_path env ip mu sg i))).map
           (fun row => row.getLastD 0)),
       np_percentile (((List.range s.toNat).map
         (fun i => (List.range d.toNat).map (price_path env ip mu sg i))).map
           (fun row => row.getLastD 0)) 2.5,
       np_percentile (((List.range s.toNat).map
         (fun i => (List.range d.toNat).map (price_path env ip mu sg i))).map
           (fun row => row.getLastD 0)) 97.5) := by
  unfold simulate_crypto_prices
  rw [simulate_core_ok_of env ip mu sg h1 h2]

lemma simulate_invalid_generic (env : Env) (ip mu sg : ℚ) {d s : Int}
    (h : d < 1 ∨ s < 1) :
    ∃ m, simulate_crypto_prices env ip mu sg d s =
      .error (.genericException m) := by
  have hcore : ∃ e, simulate_core env ip mu sg d s = .error e := by
    simp only [simulate_core]
    split_ifs with hc1 hc2 hc3
    · exact ⟨_, rfl⟩
    · exact ⟨_, rfl⟩
    · exact ⟨_, rfl⟩
    · push_neg at hc1; omega
  obtain ⟨e, he⟩ := hcore
  exact ⟨"Error in simulate_crypto_prices: " ++ errStr e, by
    unfold simulate_crypto_prices
    rw [he]⟩

lemma simulate_ok_elim {env : Env} {ip mu sg : ℚ} {d s : Int}
    {paths : List (List ℚ)} {med lo hi : ℚ}
    (h : simulate_crypto_prices env ip mu sg d s = .ok (paths, med, lo, hi)) :
    1 ≤ d ∧ 1 ≤ s ∧
    paths = (List.range s.toNat).map
      (fun i => (List.range d.toNat).map (price_path env ip mu sg i)) ∧
    med = np_median (paths.map (fun row => row.getLastD 0)) ∧
    lo = np_percentile (paths.map (fun row => row.getLastD 0)) 2.5 ∧
    hi = np_percentile (paths.map (fun row => row.getLastD 0)) 97.5 := by
  by_cases hval : 1 ≤ d ∧ 1 ≤ s
  · obtain ⟨h1, h2⟩ := hval
    have he := simulate_ok_of env ip mu sg h1 h2
    rw [h] at he
    simp only [Except.ok.injEq, Prod.mk.injEq] at he
    obtain ⟨hP, hM, hL, hH⟩ := he
    rw [← hP] at hM hL hH
    exact ⟨h1, h2, hP, hM, hL, hH⟩
  · have hds : d < 1 ∨ s < 1 := by omega
    obtain ⟨m, hm⟩ := simulate_invalid_generic env ip mu sg hds
    rw [h] at hm
    simp at hm

/-- C1: whenever simulate_crypto_prices returns an ensemble, column zero
of every path equals the initial price, and for every day t from one on,
the price at day t is the price at day t-1 times the exponential of the
normal draw of path i and day t, a draw with mean mu times dt and
deviation sigma times the square root of dt, dt being the day fraction
1 / 365 hard-coded on line 65. -/
theorem c1_gbm_recurrence {env : Env} {ip mu sg : ℚ} {d s : Int}
    {paths : List (List ℚ)} {med lo hi : ℚ}
    (hok : simulate_crypto_prices env ip mu sg d s = .ok (paths, med, lo, hi)) :
    ∀ i, i < paths.length →
      (paths.getD i []).getD 0 0 = ip ∧
      ∀ t, 1 ≤ t → t < (paths.getD i []).length →
        (paths.getD i []).getD t 0 =
          (paths.getD i []).getD (t - 1) 0 *
            env.rexp (mu * dt + sg * env.rsqrt dt * env.g i t) := by
  obtain ⟨h1, h2, hP, -, -, -⟩ := simulate_ok_elim hok
  subst hP
  intro i hi
  rw [List.length_map, List.length_range] at hi
  rw [getD_map_range _ hi]
  have hd : 0 < d.toNat := by omega
  constructor
  · rw [getD_map_range _ hd]
    rfl
  · intro t ht1 ht2
    rw [List.length_map, List.length_range] at ht2
    rw [getD_map_range _ ht2, getD_map_range _ (by omega : t - 1 < d.toNat)]
    obtain ⟨u, rfl⟩ : ∃ u, t = u + 1 := ⟨t - 1, by omega⟩
    simp [price_path, normalDraw]

/-- Witness for C1: the day-zero and day-one entries of the single path
of a two-day, one-path simulation in the concrete environment. -/
theorem c1_gbm_recurrence_witness :
    (((List.range (Int.toNat 1)).map
        (fun j => (List.range (Int.toNat 2)).map (price_path envW 100 0 0 j))).getD 0 []).getD 0 0 = (100 : ℚ) ∧
    (((List.range (Int.toNat 1)).map
        (fun j => (List.range (Int.toNat 2)).map (price_path envW 100 0 0 j))).getD 0 []).getD 1 0 =
      (((List.range (Int.toNat 1)).map
        (fun j => (List.range (Int.toNat 2)).map (price_path envW 100 0 0 j))).getD 0 []).getD (1 - 1) 0 *
        envW.rexp (0 * dt + 0 * envW.rsqrt dt * envW.g 0 1) := by
  have h := c1_gbm_recurrence
    (simulate_ok_of envW 100 0 0 (d := 2) (s := 1) (by norm_num) (by norm_num))
    0 (by decide)
  exact ⟨h.1, h.2 1 (by decide) (by decide)⟩

/-- C3 counterexample: the def line of simulate_crypto_prices has no seed
parameter, so the function does not accept an optional seed. -/
theorem c3_no_seed_counterexample : "seed" ∉ simulate_crypto_prices_args := by
  decide

/-- C3 (amended): simulate_crypto_prices is a deterministic function of
its parameters and of the library environment, in particular of the
stream of standard normal draws: two invocations with identical
parameters and identical draw streams produce identical results. -/
theorem c3_determinism (e1 e2 : Env) (hexp : e1.rexp = e2.rexp)
    (hsqrt : e1.rsqrt = e2.rsqrt) (hg : e1.g = e2.g)
    (ip mu sg : ℚ) (d s : Int) :
    simulate_crypto_prices e1 ip mu sg d s =
      simulate_crypto_prices e2 ip mu sg d s := by
  cases e1
  cases e2
  simp only [Env.mk.injEq] at *
  subst hexp
  subst hsqrt
  subst hg
  rfl

/-- Witness for C3 at the concrete environment. -/
theorem c3_determinism_witness :
    simulate_crypto_prices envW 100 0 0 2 1 =
      simulate_crypto_prices envW 100 0 0 2 1 :=
  c3_determinism envW envW rfl rfl rfl 100 0 0 2 1

/-- C5 counterexample: at horizon zero the function raises a generic
Exception wrapping the IndexError of the column-zero assignment, not the
typed InvalidConfigError of the claim. -/
theorem c5_invalid_config_counterexample :
    simulate_crypto_prices envW 100 0 0 0 5 =
      .error (.genericException ("Error in simulate_crypto_prices: " ++
        "index 0 is out of bounds for axis 1 with size 0")) ∧
    simulate_crypto_prices envW 100 0 0 0 5 ≠ .error .invalidConfigError := by
  have h : simulate_crypto_prices envW 100 0 0 0 5 =
      .error (.genericException ("Error in simulate_crypto_prices: " ++
        "index 0 is out of bounds for axis 1 with size 0")) := by
    norm_num [simulate_crypto_prices, simulate_core, errStr]
  exact ⟨h, by rw [h]; simp⟩

/-- C5 (amended): for a horizon below one or a path count below one,
simulate_crypto_prices raises a generic Exception wrapping the numpy
ValueError or IndexError; the typed InvalidConfigError does not exist in
the code. -/
theorem c5_invalid_config_generic (env : Env) (ip mu sg : ℚ) {d s : Int}
    (h : d < 1 ∨ s < 1) :
    ∃ m, simulate_crypto_prices env ip mu sg d s =
      .error (.genericException m) :=
  simulate_invalid_generic env ip mu sg h

/-- Witness for C5 at horizon zero. -/
theorem c5_invalid_config_witness :
    ((0 : Int) < 1 ∨ (5 : Int) < 1) ∧
    ∃ m, simulate_crypto_prices envW 100 0 0 0 5 =
      .error (.genericException m) :=
  ⟨Or.inl (by norm_num),
   c5_invalid_config_generic envW 100 0 0 (Or.inl (by norm_num))⟩

/-- C6: whenever simulate_crypto_prices returns, the returned summary
values are the numpy median and the 2.5th and 97.5th linear-interpolation
percentiles of the final-day column of the returned ensemble. -/
theorem c6_summary_statistics {env : Env} {ip mu sg : ℚ} {d s : Int}
    {paths : List (List ℚ)} {med lo hi : ℚ}
    (hok : simulate_crypto_prices env ip mu sg d s = .ok (paths, med, lo, hi)) :
    med = np_median (paths.map (fun row => row.getLastD 0)) ∧
    lo = np_percentile (paths.map (fun row => row.getLastD 0)) 2.5 ∧
    hi = np_percentile (paths.map (fun row => row.getLastD 0)) 97.5 := by
  obtain ⟨-, -, -, hm, hl, hh⟩ := simulate_ok_elim hok
  exact ⟨hm, hl, hh⟩

/-- Witness for C6 at a one-day, one-path simulation. -/
theorem c6_summary_statistics_witness :
    np_median ((((List.range (Int.toNat 1)).map
        (fun j => (List.range (Int.toNat 1)).map (price_path envW 100 0 0 j))).map
          (fun row => row.getLastD 0))) =
      np_median (((List.range (Int.toNat 1)).map
        (fun j => (List.range (Int.toNat 1)).map (price_path envW 100 0 0 j))).map
          (fun row => row.getLastD 0)) ∧
    np_percentile ((((List.range (Int.toNat 1)).map
        (fun j => (List.range (Int.toNat 1)).map (price_path envW 100 0 0 j))).map
          (fun row => row.getLastD 0))) 2.5 =
      np_percentile (((List.range (Int.toNat 1)).map
        (fun j => (List.range (Int.toNat 1)).map (price_path envW 100 0 0 j))).map
          (fun row => row.getLastD 0)) 2.5 ∧
    np_percentile ((((List.range (Int.toNat 1)).map
        (fun j => (List.range (Int.toNat 1)).map (price_path envW 100 0 0 j))).map
          (fun row => row.getLastD 0))) 97.5 =
      np_percentile (((List.range (Int.toNat 1)).map
        (fun j => (List.range (Int.toNat 1)).map (price_path envW 100 0 0 j))).map
          (fun row => row.getLastD 0)) 97.5 :=
  c6_summary_statistics (simulate_ok_of envW 100 0 0 (by norm_num) (by norm_num))

/-- C9: with initial price 100, zero drift, zero volatility, horizon 30
and 1000 paths, the simulation succeeds and every entry of every returned
path equals 100 exactly; the only numerical fact needed is that the
library exponential sends zero to one. -/
theorem c9_zero_vol_constant (env : Env) (hexp : env.rexp 0 = 1) :
    ∃ paths med lo hi,
      simulate_crypto_prices env 100 0 0 30 1000 = .ok (paths, med, lo, hi) ∧
      ∀ row ∈ paths, ∀ x ∈ row, x = (100 : ℚ) := by
  have hpp : ∀ i t, price_path env 100 0 0 i t = 100 := by
    intro i t
    induction t with
    | zero => rfl
    | succ u ih => simp [price_path, normalDraw, ih, hexp]
  refine ⟨_, _, _, _, simulate_ok_of env 100 0 0 (by norm_num) (by norm_num), ?_⟩
  intro row hrow x hx
  simp only [List.mem_map, List.mem_range] at hrow
  obtain ⟨i, -, rfl⟩ := hrow
  simp only [List.mem_map, List.mem_range] at hx
  obtain ⟨t, -, rfl⟩ := hx
  exact hpp i t

/-- Witness for C9 at the concrete environment. -/
theorem c9_zero_vol_constant_witness :
    ∃ paths med lo hi,
      simulate_crypto_prices envW 100 0 0 30 1000 = .ok (paths, med, lo, hi) ∧
      ∀ row ∈ paths, ∀ x ∈ row, x = (100 : ℚ) :=
  c9_zero_vol_constant envW rfl

/-- C10: with a positive initial price and a library exponential that is
everywhere positive, every entry of every returned path is strictly
positive. -/
theorem c10_positive_paths {env : Env} {ip mu sg : ℚ} {d s : Int}
    {paths : List (List ℚ)} {med lo hi : ℚ}
    (hexp : ∀ x, 0 < env.rexp x) (hip : 0 < ip)
    (hok : simulate_crypto_prices env ip mu sg d s = .ok (paths, med, lo, hi)) :
    ∀ row ∈ paths, ∀ x ∈ row, 0 < x := by
  obtain ⟨-, -, hP, -, -, -⟩ := simulate_ok_elim hok
  subst hP
  have hpos : ∀ i t, 0 < price_path env ip mu sg i t := by
    intro i t
    induction t with
    | zero => exact hip
    | succ u ih => exact mul_pos ih (hexp _)
  intro row hrow x hx
  simp only [List.mem_map, List.mem_range] at hrow
  obtain ⟨i, -, rfl⟩ := hrow
  simp only [List.mem_map, List.mem_range] at hx
  obtain ⟨t, -, rfl⟩ := hx
  exact hpos i t

/-- Witness for C10: the day-one entry of the single path of a two-day,
one-path simulation is positive. -/
theorem c10_positive_paths_witness :
    (0 : ℚ) < price_path envW 100 0 0 0 1 :=
  c10_positive_paths (fun _ => one_pos) (by norm_num)
    (simulate_ok_of envW 100 0 0 (d := 2) (s := 1) (by norm_num) (by norm_num))
    ((List.range (Int.toNat 2)).map (price_path envW 100 0 0 0))
    (List.mem_map_of_mem _ (by decide))
    (price_path envW 100 0 0 0 1)
    (List.mem_map_of_mem _ (by decide))

lemma evAdd_nan_left (x : EV) : evAdd .nan x = .nan := by cases x <;> rfl

lemma evAdd_nan_right (x : EV) : evAdd x .nan = .nan := by cases x <;> rfl

lemma evMul_nan_left (x : EV) : evMul .nan x = .nan := by cases x <;> rfl

lemma foldl_evAdd_nan (l : List EV) : l.foldl evAdd .nan = .nan := by
  induction l with
  | nil => rfl
  | cons x xs ih => rw [List.foldl_cons, evAdd_nan_left]; exact ih

lemma foldl_evAdd_pinf (l : List EV) :
    l.foldl evAdd .pinf = .pinf ∨ l.foldl evAdd .pinf = .nan := by
  induction l with
  | nil => exact Or.inl rfl
  | cons x xs ih =>
    rw [List.foldl_cons]
    cases x with
    | fin a => exact ih
    | pinf => exact ih
    | ninf => simp [evAdd, foldl_evAdd_nan]
    | nan => simp [evAdd_nan_right, foldl_evAdd_nan]

lemma foldl_evAdd_ninf (l : List EV) :
    l.foldl evAdd .ninf = .ninf ∨ l.foldl evAdd .ninf = .nan := by
  induction l with
  | nil => exact Or.inl rfl
  | cons x xs ih =>
    rw [List.foldl_cons]
    cases x with
    | fin a => exact ih
    | ninf => exact ih
    | pinf => simp [evAdd, foldl_evAdd_nan]
    | nan => simp [evAdd_nan_right, foldl_evAdd_nan]

lemma foldl_evAdd_mem_nan {l : List EV} (hx : EV.nan ∈ l) (acc : EV) :
    l.foldl evAdd acc = .nan := by
  induction l generalizing acc with
  | nil => cases hx
  | cons y ys ih =>
    rw [List.foldl_cons]
    rcases List.mem_cons.mp hx with h | h
    · rw [← h, evAdd_nan_right]; exact foldl_evAdd_nan ys
    · exact ih h _

lemma foldl_evAdd_mem_pinf {l : List EV} (hx : EV.pinf ∈ l) (acc : EV) :
    l.foldl evAdd acc = .pinf ∨ l.foldl evAdd acc = .nan := by
  induction l generalizing acc with
  | nil => cases hx
  | cons y ys ih =>
    rw [List.foldl_cons]
    rcases List.mem_cons.mp hx with h | h
    · rw [← h]
      cases acc with
      | fin a => exact foldl_evAdd_pinf ys
      | pinf => exact foldl_evAdd_pinf ys
      | ninf => simp [evAdd, foldl_evAdd_nan]
      | nan => simp [evAdd_nan_left, foldl_evAdd_nan]
    · exact ih h _

lemma foldl_evAdd_mem_ninf {l : List EV} (hx : EV.ninf ∈ l) (acc : EV) :
    l.foldl evAdd acc = .ninf ∨ l.foldl evAdd acc = .nan := by
  induction l generalizing acc with
  | nil => cases hx
  | cons y ys ih =>
    rw [List.foldl_cons]
    rcases List.mem_cons.mp hx with h | h
    · rw [← h]
      cases acc with
      | fin a => exact foldl_evAdd_ninf ys
      | ninf => exact foldl_evAdd_ninf ys
      | pinf => simp [evAdd, foldl_evAdd_nan]
      | nan => simp [evAdd_nan_left, foldl_evAdd_nan]
    · exact ih h _

lemma foldl_evAdd_map_fin (qs : List ℚ) (a : ℚ) :
    (qs.map EV.fin).foldl evAdd (.fin a) = .fin (a + qs.sum) := by
  induction qs generalizing a with
  | nil => simp
  | cons q qs ih =>
    simp only [List.map_cons, List.foldl_cons, evAdd, List.sum_cons]
    rw [ih]
    exact congrArg EV.fin (by ring)

lemma evSum_map_fin (qs : List ℚ) : evSum (qs.map .fin) = .fin qs.sum := by
  rw [evSum, foldl_evAdd_map_fin, zero_add]

lemma seriesMean_map_fin (qs : List ℚ) (h : qs ≠ []) :
    seriesMean (qs.map .fin) = .fin (qMean qs) := by
  have hlen : ((qs.length : ℚ)) ≠ 0 :=
    Nat.cast_ne_zero.mpr (fun hc => h (List.length_eq_zero.mp hc))
  simp only [seriesMean, evSum_map_fin, List.length_map, evDiv, qMean]
  rw [if_pos hlen]

lemma map_fin_sq (qs : List ℚ) (m : ℚ) :
    (qs.map EV.fin).map (fun x => evMul (evSub x (.fin m)) (evSub x (.fin m))) =
      (qs.map (fun q => (q - m) * (q - m))).map .fin := by
  rw [List.map_map, List.map_map]
  apply List.map_congr_left
  intro q _
  simp only [Function.comp_apply, evSub, evNeg, evAdd, evMul]
  exact congrArg EV.fin (by ring)

lemma seriesVar_map_fin (qs : List ℚ) (h2 : 2 ≤ qs.length) :
    seriesVar (qs.map .fin) = .fin (qSampleVar qs) := by
  have hne : qs ≠ [] := by intro hx; rw [hx] at h2; simp at h2
  have hden : ((qs.length : ℚ) - 1) ≠ 0 := by
    have h2q : (2 : ℚ) ≤ (qs.length : ℚ) := by exact_mod_cast h2
    intro hc
    linarith
  simp only [seriesVar, seriesMean_map_fin qs hne, List.length_map]
  rw [map_fin_sq, evSum_map_fin]
  simp only [evDiv, qSampleVar]
  rw [if_pos hden]

lemma qSampleVar_nonneg (qs : List ℚ) (h2 : 2 ≤ qs.length) :
    0 ≤ qSampleVar qs := by
  apply div_nonneg
  · apply List.sum_nonneg
    intro x hx
    obtain ⟨q, -, rfl⟩ := List.mem_map.mp hx
    exact mul_self_nonneg _
  · have h2q : (2 : ℚ) ≤ (qs.length : ℚ) := by exact_mod_cast h2
    linarith

lemma pct_change_map_fin {closes : List ℚ} (hne : closes ≠ [])
    (hnz : ∀ x ∈ closes, x ≠ 0) :
    pct_change closes = EV.nan :: (simpleReturns closes).map .fin := by
  cases closes with
  | nil => exact absurd rfl hne
  | cons c cs =>
    simp only [pct_change, simpleReturns, List.map_map]
    congr 1
    apply List.map_congr_left
    intro p hp
    have hp1 : p.1 ≠ 0 := by
      obtain ⟨a, b⟩ := p
      exact hnz a (List.of_mem_zip hp).1
    simp only [Function.comp_apply, evDiv]
    rw [if_pos hp1]
    simp only [evSub, evNeg, evAdd]
    exact congrArg EV.fin (by ring)

lemma dropna_cons_nan_map_fin (qs : List ℚ) :
    dropna (EV.nan :: qs.map .fin) = qs.map .fin := by
  simp only [dropna, List.filter_cons]
  rw [if_neg (by simp [EV.isNan])]
  apply List.filter_eq_self.mpr
  intro x hx
  obtain ⟨q, -, rfl⟩ := List.mem_map.mp hx
  rfl

lemma fetch_eq_of_pos (env : Env) {closes : List ℚ} (h3 : 3 ≤ closes.length)
    (hnz : ∀ x ∈ closes, x ≠ 0) (hip : 0 < closes.getLastD 0) :
    fetch_crypto_data env closes = .ok (closes.getLastD 0,
      .fin (qMean (simpleReturns closes) * 365),
      .fin (env.rsqrt (qSampleVar (simpleReturns closes)) * env.rsqrt 365)) := by
  have hne : closes ≠ [] := by intro hx; rw [hx] at h3; simp at h3
  have hret : dropna (pct_change closes) = (simpleReturns closes).map .fin := by
    rw [pct_change_map_fin hne hnz, dropna_cons_nan_map_fin]
  have hlen : (simpleReturns closes).length = closes.length - 1 := by
    simp only [simpleReturns, List.length_map, List.length_zip, List.length_tail]
    omega
  have h2 : 2 ≤ (simpleReturns closes).length := by omega
  have hrne : simpleReturns closes ≠ [] := by
    intro hx
    rw [hx] at h2
    simp at h2
  have hvar := qSampleVar_nonneg _ h2
  have hmu : evMul (seriesMean ((simpleReturns closes).map .fin)) (.fin 365) =
      .fin (qMean (simpleReturns closes) * 365) := by
    rw [seriesMean_map_fin _ hrne]
    rfl
  have hsig : evMul (seriesStd env ((simpleReturns closes).map .fin))
      (evSqrt env (.fin 365)) =
      .fin (env.rsqrt (qSampleVar (simpleReturns closes)) * env.rsqrt 365) := by
    rw [seriesStd, seriesVar_map_fin _ h2]
    simp only [evSqrt]
    rw [if_neg (not_lt.mpr hvar), if_neg (by norm_num : ¬(365 : ℚ) < 0)]
    rfl
  have hcore : fetch_core env closes = .ok (closes.getLastD 0,
      .fin (qMean (simpleReturns closes) * 365),
      .fin (env.rsqrt (qSampleVar (simpleReturns closes)) * env.rsqrt 365)) := by
    simp only [fetch_core, hret]
    rw [if_neg (by rw [List.length_map]; omega)]
    rw [hmu, hsig]
    rw [if_neg (not_le.mpr hip)]
    rw [if_neg (by simp [EV.isNan])]
  unfold fetch_crypto_data
  rw [hcore]

lemma seriesVar_nan_of_nonfinite {l : List EV}
    (hnonan : ∀ x ∈ l, x.isNan = false) {x₀ : EV} (hx₀ : x₀ ∈ l)
    (hnf : x₀.isFinite = false) : seriesVar l = .nan := by
  have hlen : ¬((l.length : ℚ) < 0) := not_lt.mpr (Nat.cast_nonneg _)
  cases x₀ with
  | fin q => simp [EV.isFinite] at hnf
  | nan =>
    have := hnonan _ hx₀
    simp [EV.isNan] at this
  | pinf =>
    have hm : seriesMean l = .pinf ∨ seriesMean l = .nan := by
      rcases foldl_evAdd_mem_pinf hx₀ (.fin 0) with hs | hs
      · left
        simp only [seriesMean, evSum, hs, evDiv]
        rw [if_neg hlen]
      · right
        simp only [seriesMean, evSum, hs, evDiv]
    have hdev : evMul (evSub EV.pinf (seriesMean l))
        (evSub EV.pinf (seriesMean l)) = .nan := by
      rcases hm with hm | hm <;> rw [hm] <;> rfl
    have hmem : EV.nan ∈ l.map
        (fun x => evMul (evSub x (seriesMean l)) (evSub x (seriesMean l))) := by
      have hb := List.mem_map_of_mem
        (fun x => evMul (evSub x (seriesMean l)) (evSub x (seriesMean l))) hx₀
      simpa only [hdev] using hb
    simp only [seriesVar, evSum]
    rw [foldl_evAdd_mem_nan hmem]
    rfl
  | ninf =>
    have hm : seriesMean l = .ninf ∨ seriesMean l = .nan := by
      rcases foldl_evAdd_mem_ninf hx₀ (.fin 0) with hs | hs
      · left
        simp only [seriesMean, evSum, hs, evDiv]
        rw [if_neg hlen]
      · right
        simp only [seriesMean, evSum, hs, evDiv]
    have hdev : evMul (evSub EV.ninf (seriesMean l))
        (evSub EV.ninf (seriesMean l)) = .nan := by
      rcases hm with hm | hm <;> rw [hm] <;> rfl
    have hmem : EV.nan ∈ l.map
        (fun x => evMul (evSub x (seriesMean l)) (evSub x (seriesMean l))) := by
      have hb := List.mem_map_of_mem
        (fun x => evMul (evSub x (seriesMean l)) (evSub x (seriesMean l))) hx₀
      simpa only [hdev] using hb
    simp only [seriesVar, evSum]
    rw [foldl_evAdd_mem_nan hmem]
    rfl

lemma exists_map_fin {l : List EV} (h : ∀ x ∈ l, x.isFinite = true) :
    ∃ qs : List ℚ, l = qs.map .fin := by
  induction l with
  | nil => exact ⟨[], rfl⟩
  | cons x xs ih =>
    obtain ⟨qs, hqs⟩ := ih (fun y hy => h y (List.mem_cons_of_mem _ hy))
    cases x with
    | fin q => exact ⟨q :: qs, by rw [List.map_cons, hqs]⟩
    | pinf =>
      have := h _ (List.mem_cons_self _ _)
      simp [EV.isFinite] at this
    | ninf =>
      have := h _ (List.mem_cons_self _ _)
      simp [EV.isFinite] at this
    | nan =>
      have := h _ (List.mem_cons_self _ _)
      simp [EV.isFinite] at this

/-- C2 counterexample: a series of length two yields only one computable
return, so the code raises rather than returning estimates. -/
theorem c2_length_two_counterexample :
    fetch_crypto_data envW [100, 110] =
      .error (.genericException ("Error in fetch_crypto_data: " ++
        "Insufficient data points to calculate returns")) := by
  norm_num [fetch_crypto_data, fetch_core, pct_change, dropna, EV.isNan,
    errStr, evSub, evDiv, evNeg, evAdd, List.zip_cons_cons, List.zip_nil_right]

/-- C2 (amended): for a price series of length at least three with all
prices nonzero and a positive last price, the estimator returns the last
price, the mean of the simple period-over-period returns annualized by
365, and the sample standard deviation of those returns annualized by the
square root of 365. -/
theorem c2_estimator_values (env : Env) {closes : List ℚ}
    (h3 : 3 ≤ closes.length) (hnz : ∀ x ∈ closes, x ≠ 0)
    (hip : 0 < closes.getLastD 0) :
    fetch_crypto_data env closes = .ok (closes.getLastD 0,
      .fin (qMean (simpleReturns closes) * 365),
      .fin (env.rsqrt (qSampleVar (simpleReturns closes)) * env.rsqrt 365)) :=
  fetch_eq_of_pos env h3 hnz hip

/-- Witness for C2 on the three-point series 100, 110, 121. -/
theorem c2_estimator_values_witness :
    3 ≤ ([100, 110, 121] : List ℚ).length ∧
    fetch_crypto_data envW [100, 110, 121] =
      .ok (([100, 110, 121] : List ℚ).getLastD 0,
        .fin (qMean (simpleReturns [100, 110, 121]) * 365),
        .fin (envW.rsqrt (qSampleVar (simpleReturns [100, 110, 121])) *
          envW.rsqrt 365)) :=
  ⟨by norm_num,
   c2_estimator_values envW (by norm_num)
     (by
       intro x hx
       simp only [List.mem_cons, List.not_mem_nil, or_false] at hx
       rcases hx with rfl | rfl | rfl <;> norm_num)
     (by norm_num [List.getLastD])⟩

/-- C4 counterexample: on a one-point series the estimator raises the
generic wrapped Exception, not one of the five typed error kinds. -/
theorem c4_typed_errors_counterexample :
    fetch_crypto_data envW [100] =
      .error (.genericException ("Error in fetch_crypto_data: " ++
        "Insufficient data points to calculate returns")) ∧
    fetch_crypto_data envW [100] ≠ .error .insufficientDataError := by
  have h : fetch_crypto_data envW [100] =
      .error (.genericException ("Error in fetch_crypto_data: " ++
        "Insufficient data points to calculate returns")) := by
    norm_num [fetch_crypto_data, fetch_core, pct_change, dropna, EV.isNan,
      errStr, List.zip_nil_right]
  exact ⟨h, by rw [h]; simp⟩

/-- C4 (amended): on invalid inputs the core functions raise a generic
Exception with a formatted message wrapping the internal error; no typed
error kind is raised and no invalid input yields a silent success. -/
theorem c4_generic_error_wrapping (env : Env) :
    (∀ closes : List ℚ, (dropna (pct_change closes)).length < 2 →
      ∃ m, fetch_crypto_data env closes = .error (.genericException m)) ∧
    (∀ ip mu sg : ℚ, ∀ d s : Int, d < 1 ∨ s < 1 →
      ∃ m, simulate_crypto_prices env ip mu sg d s =
        .error (.genericException m)) := by
  constructor
  · intro closes h
    have hcore : fetch_core env closes =
        .error (.valueError "Insufficient data points to calculate returns") := by
      simp only [fetch_core]
      rw [if_pos h]
    exact ⟨"Error in fetch_crypto_data: " ++
      errStr (.valueError "Insufficient data points to calculate returns"), by
        unfold fetch_crypto_data
        rw [hcore]⟩
  · intro ip mu sg d s h
    exact simulate_invalid_generic env ip mu sg h

/-- Witness for C4 on a one-point series and a zero-day simulation. -/
theorem c4_generic_error_wrapping_witness :
    (∃ m, fetch_crypto_data envW [100] = .error (.genericException m)) ∧
    (∃ m, simulate_crypto_prices envW 100 0 0 0 5 =
      .error (.genericException m)) :=
  ⟨(c4_generic_error_wrapping envW).1 [100]
     (by norm_num [pct_change, dropna, EV.isNan, List.zip_nil_right]),
   (c4_generic_error_wrapping envW).2 100 0 0 0 5 (Or.inl (by norm_num))⟩

/-- C7 counterexample: on the series 1, 0, 1, 1 the division by the zero
price makes one return infinite, the standard deviation of the returns is
then nan, and the code raises the generic wrapped Exception, not the
typed NumericalError of the claim. -/
theorem c7_nan_generic_counterexample :
    fetch_crypto_data envW [1, 0, 1, 1] =
      .error (.genericException ("Error in fetch_crypto_data: " ++
        "NaN detected in mu or sigma")) ∧
    fetch_crypto_data envW [1, 0, 1, 1] ≠ .error .numericalError := by
  have h : fetch_crypto_data envW [1, 0, 1, 1] =
      .error (.genericException ("Error in fetch_crypto_data: " ++
        "NaN detected in mu or sigma")) := by
    norm_num [fetch_crypto_data, fetch_core, pct_change, dropna, EV.isNan,
      errStr, evSub, evDiv, evNeg, evAdd, evMul, evSqrt, evSum, seriesMean,
      seriesVar, seriesStd, List.zip_cons_cons, List.zip_nil_right,
      List.getLastD]
  exact ⟨h, by rw [h]; simp⟩

/-- C7 (amended): whenever the estimator returns, the returned mu and
sigma are finite: the only non-finite values the exact pipeline can
produce come from division by a zero price, any such value forces the
sample standard deviation to nan, and the nan check then raises. -/
theorem c7_finite_on_success {env : Env} {closes : List ℚ} {ip : ℚ}
    {mu sigma : EV}
    (h : fetch_crypto_data env closes = .ok (ip, mu, sigma)) :
    mu.isFinite = true ∧ sigma.isFinite = true := by
  have hcore : fetch_core env closes = .ok (ip, mu, sigma) := by
    unfold fetch_crypto_data at h
    cases hc : fetch_core env closes with
    | ok v => rw [hc] at h; simp only [] at h; rw [← h]
    | error e => rw [hc] at h; simp at h
  simp only [fetch_core] at hcore
  by_cases h1 : (dropna (pct_change closes)).length < 2
  · rw [if_pos h1] at hcore
    exact absurd hcore (by simp)
  rw [if_neg h1] at hcore
  by_cases h2 : closes.getLastD 0 ≤ 0
  · rw [if_pos h2] at hcore
    exact absurd hcore (by simp)
  rw [if_neg h2] at hcore
  by_cases h3 : ((evMul (seriesMean (dropna (pct_change closes))) (.fin 365)).isNan
      || (evMul (seriesStd env (dropna (pct_change closes)))
            (evSqrt env (.fin 365))).isNan) = true
  · rw [if_pos h3] at hcore
    exact absurd hcore (by simp)
  rw [if_neg h3] at hcore
  simp only [Except.ok.injEq, Prod.mk.injEq] at hcore
  obtain ⟨-, hmu, hsig⟩ := hcore
  simp only [Bool.or_eq_true, not_or, Bool.not_eq_true] at h3
  obtain ⟨-, h3sg⟩ := h3
  have hnonan : ∀ x ∈ dropna (pct_change closes), x.isNan = false := by
    intro x hx
    have := List.of_mem_filter hx
    simpa using this
  have hfin : ∀ x ∈ dropna (pct_change closes), x.isFinite = true := by
    by_contra hcon
    push_neg at hcon
    obtain ⟨x₀, hx₀, hnf⟩ := hcon
    have hvarnan := seriesVar_nan_of_nonfinite hnonan hx₀ (by simpa using hnf)
    have : (evMul (seriesStd env (dropna (pct_change closes)))
        (evSqrt env (.fin 365))).isNan = true := by
      rw [seriesStd, hvarnan]
      rw [show evSqrt env EV.nan = EV.nan from rfl, evMul_nan_left]
      rfl
    rw [h3sg] at this
    cases this
  obtain ⟨qs, hqs⟩ := exists_map_fin hfin
  rw [hqs, List.length_map] at h1
  have hlen2 : 2 ≤ qs.length := by omega
  have hqne : qs ≠ [] := by
    intro hx
    rw [hx] at hlen2
    simp at hlen2
  have hvar' := qSampleVar_nonneg qs hlen2
  have hmu' : evMul (seriesMean (dropna (pct_change closes))) (.fin 365) =
      .fin (qMean qs * 365) := by
    rw [hqs, seriesMean_map_fin _ hqne]
    rfl
  have hsig' : evMul (seriesStd env (dropna (pct_change closes)))
      (evSqrt env (.fin 365)) =
      .fin (env.rsqrt (qSampleVar qs) * env.rsqrt 365) := by
    rw [hqs, seriesStd, seriesVar_map_fin _ hlen2]
    simp only [evSqrt]
    rw [if_neg (not_lt.mpr hvar'), if_neg (by norm_num : ¬(365 : ℚ) < 0)]
    rfl
  rw [← hmu, ← hsig, hmu', hsig']
  exact ⟨rfl, rfl⟩

/-- Witness for C7 on the three-point series 100, 110, 121. -/
theorem c7_finite_on_success_witness :
    (EV.fin (qMean (simpleReturns [100, 110, 121]) * 365)).isFinite = true ∧
    (EV.fin (envW.rsqrt (qSampleVar (simpleReturns [100, 110, 121])) *
      envW.rsqrt 365)).isFinite = true :=
  c7_finite_on_success (fetch_eq_of_pos envW (by norm_num)
    (by
      intro x hx
      simp only [List.mem_cons, List.not_mem_nil, or_false] at hx
      rcases hx with rfl | rfl | rfl <;> norm_num)
    (by norm_num [List.getLastD]))

lemma getLastD_replicate {α : Type} (c d : α) {n : ℕ} (hn : n ≠ 0) :
    (List.replicate n c).getLastD d = c := by
  induction n generalizing d with
  | zero => exact absurd rfl hn
  | succ m ih =>
    rw [List.replicate_succ, List.getLastD_cons]
    cases m with
    | zero => rfl
    | succ k =>
      apply ih
      omega

lemma zip_replicate_succ (c : ℚ) (k : ℕ) :
    (List.replicate (k + 1) c).zip (List.replicate k c) =
      List.replicate k (c, c) := by
  induction k with
  | zero => rfl
  | succ j ih =>
    rw [List.replicate_succ c (j + 1), List.replicate_succ c j,
      List.zip_cons_cons, ← List.replicate_succ c j, ih,
      ← List.replicate_succ (c, c) j]

lemma simpleReturns_replicate (c : ℚ) (hc : c ≠ 0) (n : ℕ) :
    simpleReturns (List.replicate n c) = List.replicate (n - 1) 0 := by
  cases n with
  | zero => rfl
  | succ m =>
    simp only [simpleReturns, List.replicate_succ c m, List.tail_cons]
    rw [← List.replicate_succ c m, zip_replicate_succ, List.map_replicate]
    simp [div_self hc]

/-- C8: a constant positive series of length at least three succeeds and
yields zero drift and zero volatility, the only numerical fact needed
being that the library square root sends zero to zero. -/
theorem c8_constant_series (env : Env) (c : ℚ) (n : ℕ) (hc : 0 < c)
    (hn : 3 ≤ n) (h0 : env.rsqrt 0 = 0) :
    fetch_crypto_data env (List.replicate n c) = .ok (c, .fin 0, .fin 0) := by
  have hc' : c ≠ 0 := ne_of_gt hc
  have hlast : (List.replicate n c).getLastD 0 = c :=
    getLastD_replicate c 0 (by omega)
  rw [fetch_eq_of_pos env (by rw [List.length_replicate]; omega)
    (fun x hx => by rw [List.eq_of_mem_replicate hx]; exact hc')
    (by rw [hlast]; exact hc)]
  rw [hlast, simpleReturns_replicate c hc' n]
  have hmean : qMean (List.replicate (n - 1) (0 : ℚ)) = 0 := by
    simp [qMean, List.sum_replicate]
  have hvar : qSampleVar (List.replicate (n - 1) (0 : ℚ)) = 0 := by
    simp [qSampleVar, hmean, List.map_replicate, List.sum_replicate]
  rw [hmean, hvar, h0]
  norm_num

/-- Witness for C8 on the series of four copies of 100. -/
theorem c8_constant_series_witness :
    (0 : ℚ) < 100 ∧ 3 ≤ 4 ∧
    fetch_crypto_data envW (List.replicate 4 100) = .ok (100, .fin 0, .fin 0) :=
  ⟨by norm_num, by norm_num,
   c8_constant_series envW 100 4 (by norm_num) (by norm_num) rfl⟩

end CryptoForecast
